import Mathlib

/-!
Verification of the EDID decoder in `DisplayCAL/edid.py`.

The Python code is shallowly embedded as executable Lean definitions:

* Python `bytes` values are lists of naturals (`PyBytes`); every element of a
  real `bytes` object lies in 0..255, and the embedded operations mirror the
  source's integer arithmetic on those elements.
* Python `float` values are modelled as rationals.  Every float produced by
  the embedded functions is a dyadic rational with a short significand
  (`m / 1024` with `m ≤ 1023`, or `g / 100 + 1` at spec level), so the
  rational model is exact for the dyadic cases and is documented where the
  source uses decimal division.
* A Python exception is modelled as `none` in an `Option` result.
* Python dictionaries are association lists updated by `dictSet`, which
  replaces an existing binding in place or appends a new one, exactly like
  `d[k] = v`.
-/

/-- Python `bytes`, modelled as a list of naturals. -/
abbrev PyBytes := List Nat

/-- Python slice `l[a:b]` for `a ≤ b`: drop `a` elements, then take `b - a`. -/
def pySlice (l : PyBytes) (a b : Nat) : PyBytes := (l.drop a).take (b - a)

/-- `combine_hi_8lo` from the source: `hi << 8 | lo`. -/
def combine_hi_8lo (hi lo : Nat) : Nat := hi <<< 8 ||| lo

/-- `edid_get_bit` from the source: `(value & (1 << bit)) >> bit`. -/
def edid_get_bit (value bit : Nat) : Nat := (value &&& (1 <<< bit)) >>> bit

/-- `edid_get_bits` from the source: mask out bits `b..e` of `value`. -/
def edid_get_bits (value b e : Nat) : Nat :=
  let mask := (1 <<< (e - b + 1)) - 1
  (value >>> b) &&& mask

/-- `edid_decode_fraction` from the source: a loop summing
`bit(i) * 2 ** (i - 10)` for `i` in `0..9` over the combined value
`high << 2 | low`.  The Python floats here are exact: each summand is a
power of two no smaller than `2 ** (-10)` and every partial sum is a dyadic
rational `m / 1024` with `m ≤ 1023`, all exactly representable in an
IEEE-754 double, so the rational model coincides with the float loop. -/
def edid_decode_fraction (high low : Nat) : ℚ :=
  let h := (high <<< 2) ||| low
  (List.range 10).foldl
    (fun result i => result + (edid_get_bit h i : ℚ) * (2 : ℚ) ^ ((i : ℤ) - 10)) 0

/-- Modelled from the spec's words for the refinement claim C10 only: the
naive direct division `((high << 2) | low) / 1024`. -/
def edid_decode_fraction_div (high low : Nat) : ℚ :=
  (((high <<< 2) ||| low : Nat) : ℚ) / 1024

/-- The character test behind Python's no-argument `str.strip()` and
`str.split(None)`: `str.isspace` code points.  Only the Latin-1 range is
listed; the model approximates the higher Unicode space code points of
`str.isspace` (U+1680, U+2000.., U+3000) as non-space, which no claim
depends on — the decoder's own text lies below `0x100`. -/
def isPySpaceChar (c : Char) : Bool :=
  c.toNat ∈ [9, 10, 11, 12, 13, 28, 29, 30, 31, 32, 133, 160]

/-- Python `str.strip()` (no argument): drop leading and trailing whitespace. -/
def pyStrip (s : String) : String :=
  String.mk (((s.data.dropWhile isPySpaceChar).reverse.dropWhile isPySpaceChar).reverse)

/-- `parse_manufacturer_id` from the source: combine the two bytes into a
16-bit value, take 5-bit groups at shifts 10, 5, 0, map each group `v` to the
character with code `v + 64` (`ord("A") - 1 = 64`), and strip whitespace.
Indexing an out-of-range byte (`block[0]` or `block[1]`) is a Python
`IndexError`, modelled as `none`. -/
def parse_manufacturer_id (block : PyBytes) : Option String := do
  let b0 ← block.get? 0
  let b1 ← block.get? 1
  let h := combine_hi_8lo b0 b1
  some (pyStrip (String.mk ([10, 5, 0].map
    (fun shift => Char.ofNat (((h >>> shift) &&& 0x1F) + 64)))))

theorem edid_get_bit_eq_div_mod (v i : Nat) : edid_get_bit v i = v / 2 ^ i % 2 := by
  unfold edid_get_bit
  rw [Nat.one_shiftLeft, Nat.and_two_pow, Nat.shiftRight_eq_div_pow,
      Nat.mul_div_cancel _ (by positivity : (0:ℕ) < 2 ^ i), Nat.testBit_to_div_mod]
  rcases Nat.mod_two_eq_zero_or_one (v / 2 ^ i) with h | h <;> simp [h]

theorem sum_div_pow_mod_two (n : Nat) :
    ∀ k, ∑ i in Finset.range k, n / 2 ^ i % 2 * 2 ^ i = n % 2 ^ k := by
  intro k
  induction k with
  | zero => simp [Nat.mod_one]
  | succ k ih =>
    rw [Finset.sum_range_succ, ih, pow_succ, Nat.mod_mul]
    ring

theorem edid_decode_fraction_eq (high low : Nat) :
    edid_decode_fraction high low =
      ((((high <<< 2) ||| low) % 1024 : Nat) : ℚ) / 1024 := by
  unfold edid_decode_fraction
  have hs : ((((high <<< 2) ||| low) % 1024 : Nat) : ℚ)
      = ((∑ i in Finset.range 10,
          ((high <<< 2) ||| low) / 2 ^ i % 2 * 2 ^ i : Nat) : ℚ) := by
    rw [sum_div_pow_mod_two (((high <<< 2) ||| low)) 10,
        show (1024:ℕ) = 2 ^ 10 from rfl]
  rw [hs]
  rw [show List.range 10 = [0,1,2,3,4,5,6,7,8,9] from rfl]
  simp only [List.foldl, edid_get_bit_eq_div_mod]
  rw [Finset.sum_range_succ, Finset.sum_range_succ, Finset.sum_range_succ,
      Finset.sum_range_succ, Finset.sum_range_succ, Finset.sum_range_succ,
      Finset.sum_range_succ, Finset.sum_range_succ, Finset.sum_range_succ,
      Finset.sum_range_succ, Finset.sum_range_zero]
  push_cast
  norm_num
  ring

theorem sum_bits_eq_mod_div (n : Nat) :
    ∑ i in Finset.range 10, (edid_get_bit n i : ℚ) * (2 : ℚ) ^ ((i : ℤ) - 10)
      = ((n % 1024 : Nat) : ℚ) / 1024 := by
  have hs : ((n % 1024 : Nat) : ℚ)
      = ((∑ i in Finset.range 10, n / 2 ^ i % 2 * 2 ^ i : Nat) : ℚ) := by
    rw [sum_div_pow_mod_two n 10, show (1024:ℕ) = 2 ^ 10 from rfl]
  rw [hs]
  simp only [edid_get_bit_eq_div_mod]
  rw [Finset.sum_range_succ, Finset.sum_range_succ, Finset.sum_range_succ,
      Finset.sum_range_succ, Finset.sum_range_succ, Finset.sum_range_succ,
      Finset.sum_range_succ, Finset.sum_range_succ, Finset.sum_range_succ,
      Finset.sum_range_succ, Finset.sum_range_zero,
      Finset.sum_range_succ, Finset.sum_range_succ, Finset.sum_range_succ,
      Finset.sum_range_succ, Finset.sum_range_succ, Finset.sum_range_succ,
      Finset.sum_range_succ, Finset.sum_range_succ, Finset.sum_range_succ,
      Finset.sum_range_succ, Finset.sum_range_zero]
  push_cast
  norm_num
  ring

/-- Claim C7: `edid_decode_fraction 0 0` is exactly `0`,
`edid_decode_fraction 0xFF 0b11` is exactly `1023 / 1024`, and for every
high byte and 2-bit low value the result equals the bit-weighted sum over
the combined 10-bit value and lies in the interval `[0, 1)`. -/
theorem edid_decode_fraction_values_and_range (high low : Nat)
    (hh : high < 256) (hl : low < 4) :
    edid_decode_fraction 0 0 = 0 ∧
    edid_decode_fraction 0xFF 0b11 = 1023 / 1024 ∧
    edid_decode_fraction high low =
      ∑ i in Finset.range 10,
        (edid_get_bit ((high <<< 2) ||| low) i : ℚ) * (2 : ℚ) ^ ((i : ℤ) - 10) ∧
    0 ≤ edid_decode_fraction high low ∧ edid_decode_fraction high low < 1 := by
  refine ⟨?_, ?_, ?_, ?_, ?_⟩
  · rw [edid_decode_fraction_eq]; norm_num
  · rw [edid_decode_fraction_eq,
        show (((0xFF <<< 2) ||| 0b11) % 1024 : Nat) = 1023 from rfl]
    norm_num
  · rw [edid_decode_fraction_eq, sum_bits_eq_mod_div]
  · rw [edid_decode_fraction_eq]; positivity
  · rw [edid_decode_fraction_eq]
    rw [div_lt_one (by norm_num : (0:ℚ) < 1024)]
    have : ((high <<< 2) ||| low) % 1024 < 1024 := Nat.mod_lt _ (by norm_num)
    exact_mod_cast this

/-- Witness for C7 at `high = 255`, `low = 3`. -/
theorem edid_decode_fraction_values_and_range_witness :
    edid_decode_fraction 0 0 = 0 ∧
    edid_decode_fraction 0xFF 0b11 = 1023 / 1024 ∧
    edid_decode_fraction 255 3 =
      ∑ i in Finset.range 10,
        (edid_get_bit ((255 <<< 2) ||| 3) i : ℚ) * (2 : ℚ) ^ ((i : ℤ) - 10) ∧
    0 ≤ edid_decode_fraction 255 3 ∧ edid_decode_fraction 255 3 < 1 :=
  edid_decode_fraction_values_and_range 255 3 (by norm_num) (by norm_num)

/-- Claim C10: the loop-based bit-weighted decoder agrees exactly with the
naive division `((high << 2) | low) / 1024` for every high byte in `[0,255]`
and low value in `[0,3]`. -/
theorem edid_decode_fraction_refines_div (high low : Nat)
    (hh : high < 256) (hl : low < 4) :
    edid_decode_fraction high low = edid_decode_fraction_div high low := by
  rw [edid_decode_fraction_eq]
  unfold edid_decode_fraction_div
  have hcomb : (high <<< 2) ||| low < 1024 := by
    have h1 : high <<< 2 < 2 ^ 10 := by
      rw [Nat.shiftLeft_eq]
      calc high * 2 ^ 2 ≤ 255 * 4 := by
            have := Nat.le_of_lt_succ hh
            nlinarith
        _ < 2 ^ 10 := by norm_num
    have h2 : low < 2 ^ 10 := by omega
    calc (high <<< 2) ||| low < 2 ^ 10 := Nat.or_lt_two_pow h1 h2
      _ = 1024 := by norm_num
  rw [Nat.mod_eq_of_lt hcomb]

/-- Witness for C10 at `high = 255`, `low = 3`. -/
theorem edid_decode_fraction_refines_div_witness :
    edid_decode_fraction 255 3 = edid_decode_fraction_div 255 3 :=
  edid_decode_fraction_refines_div 255 3 (by norm_num) (by norm_num)

/-- Claim C8: the packed manufacturer bytes `(0x10, 0xAC)` decode to the
string `"DEL"`. -/
theorem parse_manufacturer_id_dell :
    parse_manufacturer_id [0x10, 0xAC] = some "DEL" := by decide

theorem dropWhile_eq_self_of_all {α : Type} (p : α → Bool) {l : List α}
    (h : ∀ c ∈ l, p c = false) : l.dropWhile p = l := by
  cases l with
  | nil => rfl
  | cons a t => simp [List.dropWhile_cons, h a (List.mem_cons_self a t)]

theorem pyStrip_of_no_space {l : List Char} (h : ∀ c ∈ l, isPySpaceChar c = false) :
    pyStrip (String.mk l) = String.mk l := by
  unfold pyStrip
  rw [show (String.mk l).data = l from rfl, dropWhile_eq_self_of_all _ h]
  rw [dropWhile_eq_self_of_all _ (by intro c hc; exact h c (List.mem_reverse.mp hc)),
      List.reverse_reverse]

/-- Counterexample to claim C3: the two-byte block `(0, 0)` decodes to the
three-character string `"@@@"`, whose characters are not in `A`..`Z`. -/
theorem parse_manufacturer_id_not_always_alpha :
    parse_manufacturer_id [0, 0] = some "@@@" ∧
      ¬ ∀ c ∈ "@@@".data, 'A' ≤ c ∧ c ≤ 'Z' := by
  constructor
  · decide
  · decide

/-- Claim C3 as amended: for every 2-byte block, `parse_manufacturer_id`
returns a string of exactly 3 characters, each with ASCII code in the range
64..95 (`@` to `_`); the characters are in `A`..`Z` only when each packed
5-bit field lies in 1..26. -/
theorem parse_manufacturer_id_shape (b0 b1 : Nat) :
    ∃ s, parse_manufacturer_id [b0, b1] = some s ∧ s.length = 3 ∧
      s.data.all (fun c => decide (64 ≤ c.toNat) && decide (c.toNat ≤ 95)) = true := by
  have key : ∀ v, v < 32 →
      (Char.ofNat (v + 64)).toNat = v + 64 ∧
        isPySpaceChar (Char.ofNat (v + 64)) = false := by decide
  set h := combine_hi_8lo b0 b1 with hdef
  have hv : ∀ sh : Nat, h >>> sh &&& 0x1F < 32 :=
    fun sh => Nat.lt_succ_of_le Nat.and_le_right
  have hchars : ∀ sh : Nat,
      (Char.ofNat ((h >>> sh &&& 0x1F) + 64)).toNat = (h >>> sh &&& 0x1F) + 64 ∧
        isPySpaceChar (Char.ofNat ((h >>> sh &&& 0x1F) + 64)) = false :=
    fun sh => key _ (hv sh)
  have hpm : parse_manufacturer_id [b0, b1] =
      some (pyStrip (String.mk ([10, 5, 0].map
        (fun shift => Char.ofNat (((h >>> shift) &&& 0x1F) + 64))))) := rfl
  rw [hpm]
  rw [show [10, 5, 0].map (fun shift => Char.ofNat (((h >>> shift) &&& 0x1F) + 64))
      = [Char.ofNat ((h >>> 10 &&& 0x1F) + 64), Char.ofNat ((h >>> 5 &&& 0x1F) + 64),
         Char.ofNat ((h >>> 0 &&& 0x1F) + 64)] from rfl]
  rw [pyStrip_of_no_space (by
    intro c hc
    simp only [List.mem_cons, List.not_mem_nil, or_false] at hc
    rcases hc with rfl | rfl | rfl
    · exact (hchars 10).2
    · exact (hchars 5).2
    · exact (hchars 0).2)]
  refine ⟨_, rfl, rfl, ?_⟩
  simp only [List.all_cons, List.all_nil, Bool.and_true, Bool.and_eq_true,
    decide_eq_true_eq]
  refine ⟨⟨?_, ?_⟩, ⟨?_, ?_⟩, ?_, ?_⟩ <;>
    [rw [(hchars 10).1]; rw [(hchars 10).1]; rw [(hchars 5).1]; rw [(hchars 5).1];
     rw [(hchars 0).1]; rw [(hchars 0).1]] <;>
    [skip; have := hv 10; skip; have := hv 5; skip; have := hv 0] <;> omega

/-- The strip set of `parse_pnpid_line`: Python's `string.whitespace`
characters plus the non-breaking space. -/
def pnpidStripChars : List Char :=
  [' ', '\t', '\n', '\r', Char.ofNat 11, Char.ofNat 12, Char.ofNat 0xA0]

/-- Python `str.strip(chars)`: drop leading and trailing characters that are
members of the set. -/
def pyStripChars (s : String) (chars : List Char) : String :=
  String.mk (((s.data.dropWhile (chars.contains ·)).reverse.dropWhile
    (chars.contains ·)).reverse)

/-- `parse_hwdb_line` from the source.  The indexing `line.split(":")[1]` is
reachable only when the stripped line starts with `"acpi:"`, so the colon is
present and the index is in range; a malformed `ID_VENDOR_FROM_DATABASE`
line without `=` would raise IndexError in Python and is modelled as a
`none` field, which no claim depends on. -/
def parse_hwdb_line (line : String) : Option String × Option String :=
  if (pyStrip line).startsWith "acpi:" then
    (((line.splitOn ":").get? 1).map (fun s => s.take 3), none)
  else if (pyStrip line).startsWith "ID_VENDOR_FROM_DATABASE" then
    (none,
     match line.splitOn "=" with
     | [] => none
     | [_] => none
     | _ :: rest => some (pyStrip (String.intercalate "=" rest)))
  else (none, none)

/-- `parse_pnpid_line` from the source: strip `string.whitespace` plus the
non-breaking space from both ends, then `split(None, 1)`: the first
whitespace-free token, and the remainder after the first whitespace run.  A
line with fewer than two fields raises ValueError, caught in the source to
give `(None, None)`. -/
def parse_pnpid_line (line : String) : Option String × Option String :=
  let s := pyStripChars line pnpidStripChars
  let l := s.data.dropWhile isPySpaceChar
  let tok := l.takeWhile (fun c => !(isPySpaceChar c))
  let rest := (l.drop tok.length).dropWhile isPySpaceChar
  if tok.isEmpty || rest.isEmpty then (none, none)
  else (some (String.mk tok), some (String.mk rest))

/-- One iteration of the `parse_pnpid_file` loop: parse the line with the
format selected by the path suffix, then insert only when both fields are
truthy (non-empty) and the code is not already in the cache. -/
def pnpid_insert_line (path : String) (cache : List (String × String))
    (line : String) : List (String × String) :=
  let pr := if path.endsWith "hwdb" then parse_hwdb_line line
            else parse_pnpid_line line
  match pr with
  | (some id, some name) =>
      if id ≠ "" ∧ name ≠ "" ∧ (cache.lookup id).isNone then cache ++ [(id, name)]
      else cache
  | _ => cache

/-- `parse_pnpid_file` from the source: fold the insertion step over the
lines of the file, threading the global `pnpidcache` (made explicit as the
`cache` argument). -/
def parse_pnpid_file (pnp_ids : List String) (path : String)
    (cache : List (String × String)) : List (String × String) :=
  pnp_ids.foldl (pnpid_insert_line path) cache

/-- The (code, name) pair a single line contributes, when both fields are
truthy. -/
def lineEntry (path line : String) : Option (String × String) :=
  match (if path.endsWith "hwdb" then parse_hwdb_line line
         else parse_pnpid_line line) with
  | (some id, some name) => if id ≠ "" ∧ name ≠ "" then some (id, name) else none
  | _ => none

/-- The name carried by the first line of the file that supplies `code`. -/
def firstSuppliedName (pnp_ids : List String) (path code : String) :
    Option String :=
  pnp_ids.findSome? (fun line => (lineEntry path line).bind
    (fun p => if p.1 = code then some p.2 else none))

theorem pnpid_insert_line_eq (path : String) (cache : List (String × String))
    (line : String) :
    pnpid_insert_line path cache line =
      match lineEntry path line with
      | some p => if (cache.lookup p.1).isNone then cache ++ [p] else cache
      | none => cache := by
  unfold pnpid_insert_line lineEntry
  rcases hpr : (if path.endsWith "hwdb" then parse_hwdb_line line
                else parse_pnpid_line line) with ⟨id?, name?⟩
  cases id? <;> cases name? <;> simp only
  rename_i id name
  by_cases hid : id = "" <;> by_cases hname : name = "" <;>
    by_cases hlk : (cache.lookup id).isNone <;>
    simp [hid, hname, hlk]

theorem lookup_append {β : Type} (l1 l2 : List (String × β)) (k : String) :
    (l1 ++ l2).lookup k =
      match l1.lookup k with
      | some v => some v
      | none => l2.lookup k := by
  induction l1 with
  | nil => simp [List.lookup]
  | cons p t ih =>
    rcases p with ⟨a, b⟩
    by_cases h : k = a
    · simp [List.lookup, h]
    · have : (k == a) = false := beq_eq_false_iff_ne.mpr h
      simp [List.lookup, this, ih]

/-- Claim C9: manufacturer-database population is first-wins.  For every
sequence of lines fed through `parse_pnpid_file`, a code already present in
the cache keeps its cached name, and a fresh code ends up mapped to the name
from the first line that supplied it. -/
theorem parse_pnpid_file_first_wins (pnp_ids : List String) (path : String)
    (cache : List (String × String)) (code : String) :
    (parse_pnpid_file pnp_ids path cache).lookup code =
      match cache.lookup code with
      | some v => some v
      | none => firstSuppliedName pnp_ids path code := by
  induction pnp_ids generalizing cache with
  | nil =>
    cases h : cache.lookup code <;>
      simp [parse_pnpid_file, firstSuppliedName, h]
  | cons line rest ih =>
    have hstep : parse_pnpid_file (line :: rest) path cache =
        parse_pnpid_file rest path (pnpid_insert_line path cache line) := by
      unfold parse_pnpid_file
      rw [List.foldl_cons]
    rw [hstep]
    cases he : lineEntry path line with
    | none =>
      have hi : pnpid_insert_line path cache line = cache := by
        rw [pnpid_insert_line_eq, he]
      have hf : firstSuppliedName (line :: rest) path code =
          firstSuppliedName rest path code := by
        unfold firstSuppliedName
        rw [List.findSome?_cons, he]
        rfl
      rw [hi, ih, hf]
    | some p =>
      rcases p with ⟨i, n⟩
      by_cases hic : i = code
      · subst hic
        have hf : firstSuppliedName (line :: rest) path i = some n := by
          unfold firstSuppliedName
          rw [List.findSome?_cons, he]
          simp
        cases hl : cache.lookup i with
        | some v =>
          have hi : pnpid_insert_line path cache line = cache := by
            rw [pnpid_insert_line_eq, he]
            simp [hl]
          rw [hi, ih, hl, hf]
        | none =>
          have hi : pnpid_insert_line path cache line = cache ++ [(i, n)] := by
            rw [pnpid_insert_line_eq, he]
            simp [hl]
          rw [hi, ih, lookup_append, hl, hf]
          simp [List.lookup]
      · have hf : firstSuppliedName (line :: rest) path code =
            firstSuppliedName rest path code := by
          unfold firstSuppliedName
          rw [List.findSome?_cons, he]
          simp [hic]
        cases hl : cache.lookup i with
        | some v =>
          have hi : pnpid_insert_line path cache line = cache := by
            rw [pnpid_insert_line_eq, he]
            simp [hl]
          rw [hi, ih, hf]
        | none =>
          have hi : pnpid_insert_line path cache line = cache ++ [(i, n)] := by
            rw [pnpid_insert_line_eq, he]
            simp [hl]
          rw [hi, ih, lookup_append, hf]
          have hbeq : (code == i) = false :=
            beq_eq_false_iff_ne.mpr (fun h => hic h.symm)
          cases hc : cache.lookup code <;> simp [List.lookup, hbeq, hc]

/-- Python `bytes.rstrip()`: strip trailing ASCII whitespace bytes. -/
def pyRstripBytes (l : PyBytes) : PyBytes :=
  (l.reverse.dropWhile (fun b => b ∈ [9, 10, 11, 12, 13, 32])).reverse

/-- The trimming stages of `edid_parse_string`: truncate to 13 bytes,
replace newline and carriage return bytes by NUL, cut at the first NUL
(`desc.find` then slice), and strip trailing whitespace. -/
def edid_string_trimmed (desc : PyBytes) : PyBytes :=
  let d1 := (desc.take 13).map (fun b => if b = 10 ∨ b = 13 then 0 else b)
  let d2 := match d1.findIdx? (fun b => b = 0) with
            | some i => d1.take i
            | none => d1
  pyRstripBytes d2

/-- The number of trimmed bytes outside printable ASCII 32..126: the value
of the source's replacement counter. -/
def edid_string_bad_count (desc : PyBytes) : Nat :=
  ((edid_string_trimmed desc).filter (fun b => decide (b < 32 ∨ 126 < b))).length

/-- The accepted sanitizer output: every trimmed byte outside printable
ASCII appears as a dash. -/
def edid_string_replaced (desc : PyBytes) : PyBytes :=
  (edid_string_trimmed desc).map (fun b => if b < 32 ∨ 126 < b then 45 else b)

/-- `edid_parse_string` from the source: after trimming, a loop walks the
bytearray replacing every byte outside printable ASCII 32..126 by NUL while
counting the replacements; if at most 4 bytes were replaced, every NUL is
replaced by a dash (`-` is byte 45) and the result returned, otherwise the
source falls through and returns nothing. -/
def edid_parse_string (desc : PyBytes) : Option PyBytes :=
  let d := edid_string_trimmed desc
  let walked := d.foldl
    (fun (acc : PyBytes × Nat) b =>
      if b < 32 ∨ 126 < b then (acc.1 ++ [0], acc.2 + 1) else (acc.1 ++ [b], acc.2))
    ([], 0)
  if walked.2 ≤ 4 then
    some (walked.1.map (fun b => if b = 0 then 45 else b))
  else none

theorem edid_walk_eq (l : PyBytes) :
    ∀ acc : PyBytes × Nat,
      l.foldl (fun (acc : PyBytes × Nat) b =>
        if b < 32 ∨ 126 < b then (acc.1 ++ [0], acc.2 + 1)
        else (acc.1 ++ [b], acc.2)) acc
      = (acc.1 ++ l.map (fun b => if b < 32 ∨ 126 < b then 0 else b),
         acc.2 + (l.filter (fun b => decide (b < 32 ∨ 126 < b))).length) := by
  induction l with
  | nil => intro acc; simp
  | cons b t ih =>
    intro acc
    rw [List.foldl_cons]
    by_cases hb : b < 32 ∨ 126 < b
    · rw [if_pos hb, ih]
      simp [List.filter_cons, hb, List.append_assoc]
      omega
    · rw [if_neg hb, ih]
      simp [List.filter_cons, hb, List.append_assoc]

theorem edid_parse_string_eq (desc : PyBytes) :
    edid_parse_string desc =
      if 4 < edid_string_bad_count desc then none
      else some (edid_string_replaced desc) := by
  simp only [edid_parse_string, edid_string_bad_count, edid_string_replaced]
  rw [edid_walk_eq]
  simp only [List.nil_append, Nat.zero_add]
  have hfun : ∀ l : PyBytes,
      (l.map (fun b => if b < 32 ∨ 126 < b then 0 else b)).map
        (fun b => if b = 0 then 45 else b)
      = l.map (fun b => if b < 32 ∨ 126 < b then 45 else b) := by
    intro l
    rw [List.map_map]
    congr 1
    funext b
    by_cases hb : b < 32 ∨ 126 < b
    · simp [hb]
    · have hb0 : ¬ b = 0 := by push_neg at hb; omega
      simp [hb, hb0]
  rw [hfun]
  by_cases h : ((edid_string_trimmed desc).filter
      (fun b => decide (b < 32 ∨ 126 < b))).length ≤ 4
  · rw [if_pos h, if_neg (by omega)]
  · rw [if_neg h, if_pos (by omega)]

/-- Counterexample to claim C6 as stated: the descriptor run
`[65, 0, 1, 1, 1, 1, 1]` contains six bytes outside printable ASCII
(a NUL and five 0x01 bytes), yet `edid_parse_string` accepts it and
returns `"A"`, because everything after the first NUL is cut before the
replacement counter runs. -/
theorem edid_parse_string_accepts_many_nonprintable :
    edid_parse_string [65, 0, 1, 1, 1, 1, 1] = some [65] ∧
      4 < (([65, 0, 1, 1, 1, 1, 1] : PyBytes).filter
        (fun b => decide (b < 32 ∨ 126 < b))).length := by
  constructor
  · decide
  · decide

/-- Claim C6 as amended: `edid_parse_string` returns nothing precisely when
more than 4 of the bytes remaining after trimming (truncation to 13 bytes,
newline conversion, cut at the first NUL, removal of trailing whitespace)
lie outside printable ASCII 32..126; on acceptance every such byte appears
as a dash and the result is printable. -/
theorem edid_parse_string_threshold (desc : PyBytes) :
    edid_parse_string desc =
      (if 4 < edid_string_bad_count desc then none
       else some (edid_string_replaced desc)) ∧
    (edid_string_replaced desc).all (fun b => decide (32 ≤ b ∧ b ≤ 126)) = true := by
  refine ⟨edid_parse_string_eq desc, ?_⟩
  rw [List.all_eq_true]
  intro b hb
  rw [edid_string_replaced, List.mem_map] at hb
  obtain ⟨a, _, rfl⟩ := hb
  by_cases ha : a < 32 ∨ 126 < a
  · simp [ha]
  · push_neg at ha
    have hna : ¬(a < 32 ∨ 126 < a) := by omega
    simp [hna, ha.1, ha.2]

/-- A decoded field value.  `hashMd5` models the `md5(...).hexdigest()`
string opaquely as a constructor holding the digested input: the digest is a
total function of the buffer and no claim concerns its value. -/
inductive Value where
  | bytes (b : PyBytes)
  | str (s : String)
  | int (n : Nat)
  | float (q : ℚ)
  | bool (b : Bool)
  | hashMd5 (input : PyBytes)
  deriving DecidableEq, Repr

/-- A Python dict with string keys, as an association list in insertion
order. -/
abbrev Record := List (String × Value)

/-- Python `d[k] = v`: replace the binding in place if the key is present,
else append it. -/
def dictSet (r : Record) (k : String) (v : Value) : Record :=
  if r.any (fun p => p.1 == k) then
    r.map (fun p => if p.1 == k then (k, v) else p)
  else r ++ [(k, v)]

/-- Python `d.update(e)`: assign every binding of `e` in order. -/
def dictUpdate (r e : Record) : Record :=
  e.foldl (fun acc p => dictSet acc p.1 p.2) r

/-- In Python 3 an `int` never equals a `bytes` object, so `==` between them
is always false; the source compares `block[3]` (an int) against the
one-byte `bytes` constants `BLOCK_TYPE_COLOR_POINT` and
`BLOCK_TYPE_COLOR_MANAGEMENT_DATA`. -/
def pyIntEqBytes (_n : Nat) (_b : PyBytes) : Bool := false

/-- In Python 3 an `int` always differs from a `str`, so `!=` between them
is always true; the source compares `block[i + 4]` (an int) against the
string sentinel `"\xff"`. -/
def pyIntNeStr (_n : Nat) (_s : String) : Bool := true

/-- In Python 3 an `int` always differs from a `bytes` object, so the gamma
guard `edid[GAMMA] != b"\xff"` is always true. -/
def pyIntNeBytes (_n : Nat) (_b : PyBytes) : Bool := true

/-- `struct.unpack("<H", b)[0]`: little-endian 16-bit value; raises
(`none`) unless given exactly 2 bytes. -/
def struct_unpack_u16le : PyBytes → Option Nat
  | [b0, b1] => some (b0 + b1 * 256)
  | _ => none

/-- `struct.unpack("<I", b)[0]`: little-endian 32-bit value; raises
(`none`) unless given exactly 4 bytes. -/
def struct_unpack_u32le : PyBytes → Option Nat
  | [b0, b1, b2, b3] => some (b0 + b1 * 256 + b2 * 65536 + b3 * 16777216)
  | _ => none

/-- Whether a byte is a UTF-8 continuation byte `0x80..0xBF`. -/
def isUtf8Cont (b : Nat) : Bool := decide (128 ≤ b ∧ b ≤ 191)

/-- One multi-byte UTF-8 sequence step: given a lead byte `b0 ≥ 0x80` and
the remaining bytes, validate the continuation bytes and return the decoded
code point together with the number of continuation bytes consumed, or
`none` for a malformed sequence (stray continuation or invalid lead byte,
truncated sequence, overlong form, surrogate, or a value beyond U+10FFFF). -/
def utf8Step (b0 : Nat) (rest : List Nat) : Option (Nat × Nat) :=
  if 194 ≤ b0 ∧ b0 ≤ 223 then
    match rest with
    | b1 :: _ =>
      if isUtf8Cont b1 then some ((b0 - 192) * 64 + (b1 - 128), 1) else none
    | [] => none
  else if 224 ≤ b0 ∧ b0 ≤ 239 then
    match rest with
    | b1 :: b2 :: _ =>
      if ((if b0 = 224 then decide (160 ≤ b1 ∧ b1 ≤ 191)
           else if b0 = 237 then decide (128 ≤ b1 ∧ b1 ≤ 159)
           else isUtf8Cont b1) && isUtf8Cont b2) then
        some ((b0 - 224) * 4096 + (b1 - 128) * 64 + (b2 - 128), 2)
      else none
    | _ => none
  else if 240 ≤ b0 ∧ b0 ≤ 244 then
    match rest with
    | b1 :: b2 :: b3 :: _ =>
      if ((if b0 = 240 then decide (144 ≤ b1 ∧ b1 ≤ 191)
           else if b0 = 244 then decide (128 ≤ b1 ∧ b1 ≤ 143)
           else isUtf8Cont b1) && isUtf8Cont b2 && isUtf8Cont b3) then
        some ((b0 - 240) * 262144 + (b1 - 128) * 4096 + (b2 - 128) * 64
          + (b3 - 128), 3)
      else none
    | _ => none
  else none

/-- Strict UTF-8 decoding of a byte list into code points, as Python's
`bytes.decode("utf-8")`: ASCII bytes pass through, multi-byte sequences go
through `utf8Step`; `none` models UnicodeDecodeError. -/
def utf8Decode : List Nat → Option (List Nat)
  | [] => some []
  | b0 :: rest =>
    if b0 < 128 then (utf8Decode rest).map (b0 :: ·)
    else match utf8Step b0 rest with
      | some (cp, n) => (utf8Decode (rest.drop n)).map (cp :: ·)
      | none => none
termination_by l => l.length
decreasing_by
  · simp
  · simp [List.length_drop]
    omega

/-- Python `str.encode("latin-1")`: every code point must fit in one byte;
`none` models UnicodeEncodeError. -/
def latin1Encode (cps : List Nat) : Option PyBytes :=
  if cps.all (fun c => decide (c ≤ 255)) then some cps else none

/-- `fix_edid_encoding` from the source: when either marker byte 0xC2 or
0xC3 occurs, undo a wrong latin-1 → UTF-8 round trip by decoding the buffer
as UTF-8 and re-encoding it as latin-1. -/
def fix_edid_encoding (edid : PyBytes) : Option PyBytes :=
  if 0xC2 ∈ edid ∨ 0xC3 ∈ edid then do
    let cps ← utf8Decode edid
    latin1Encode cps
  else some edid

/-- `ensure_bytes` from the source: the model's inputs are already byte
lists, so the isinstance-of-str branch (latin-1 encoding of text input) is
the identity here. -/
def ensure_bytes (edid : PyBytes) : PyBytes := edid

/-- Python `bytes.decode("utf-8")` producing a string. -/
def pyBytesDecodeUtf8 (b : PyBytes) : Option String :=
  (utf8Decode b).map (fun cps => String.mk (cps.map Char.ofNat))

/-- `get_manufacturer_name` from the source: a lookup in the process-wide
`pnpidcache`; the lazy on-disk population (`load_pnpidcache`) is modelled
by passing the populated cache explicitly. -/
def get_manufacturer_name (pnpidcache : List (String × String))
    (manufacturer_id : String) : Option String :=
  pnpidcache.lookup manufacturer_id

/-- `parse_edid_header` from the source: the buffer, its hash, the 8-byte
header slice, the manufacturer id, and — when the cache lookup result is
truthy — the manufacturer name. -/
def parse_edid_header (pnpidcache : List (String × String)) (edid : PyBytes) :
    Option Record := do
  let mid ← parse_manufacturer_id (pySlice edid 8 10)
  let base : Record := [("edid", Value.bytes edid), ("hash", Value.hashMd5 edid),
    ("header", Value.bytes (pySlice edid 0 8)), ("manufacturer_id", Value.str mid)]
  match get_manufacturer_name pnpidcache mid with
  | some name =>
      if name ≠ "" then some (base ++ [("manufacturer", Value.str name)])
      else some base
  | none => some base

/-- `parse_edid_basic_display_parameters` from the source.  The gamma guard
`edid[GAMMA] != b"\xff"` compares an int against a bytes object
(`pyIntNeBytes`), which in Python 3 is always true. -/
def parse_edid_basic_display_parameters (edid : PyBytes) : Option Record := do
  let product_id ← struct_unpack_u16le (pySlice edid 10 12)
  let serial_32 ← struct_unpack_u32le (pySlice edid 12 16)
  let week ← edid.get? 16
  let year ← edid.get? 17
  let ever ← edid.get? 18
  let erev ← edid.get? 19
  let hsize ← edid.get? 21
  let vsize ← edid.get? 22
  let g ← edid.get? 23
  let feat ← edid.get? 24
  let base : Record := [("product_id", Value.int product_id),
    ("serial_32", Value.int serial_32),
    ("week_of_manufacture", Value.int week),
    ("year_of_manufacture", Value.int (year + 1990)),
    ("edid_version", Value.int ever),
    ("edid_revision", Value.int erev),
    ("max_h_size_cm", Value.int hsize),
    ("max_v_size_cm", Value.int vsize)]
  let base := if pyIntNeBytes g [0xFF] then
      base ++ [("gamma", Value.float ((g : ℚ) / 100 + 1))]
    else base
  some (base ++ [("features", Value.int feat)])

/-- `parse_edid_chromaticity_coordinates` from the source: eight fraction
decodes from the packed low-bit bytes 25 and 26 and the dedicated high
bytes 27..34. -/
def parse_edid_chromaticity_coordinates (edid : PyBytes) : Option Record := do
  let lo_rg ← edid.get? 25
  let lo_bw ← edid.get? 26
  let hi_r_x ← edid.get? 27
  let hi_r_y ← edid.get? 28
  let hi_g_x ← edid.get? 29
  let hi_g_y ← edid.get? 30
  let hi_b_x ← edid.get? 31
  let hi_b_y ← edid.get? 32
  let hi_w_x ← edid.get? 33
  let hi_w_y ← edid.get? 34
  some [("red_x", Value.float (edid_decode_fraction hi_r_x (edid_get_bits lo_rg 6 7))),
    ("red_y", Value.float (edid_decode_fraction hi_r_y (edid_get_bits lo_rg 4 5))),
    ("green_x", Value.float (edid_decode_fraction hi_g_x (edid_get_bits lo_rg 2 3))),
    ("green_y", Value.float (edid_decode_fraction hi_g_y (edid_get_bits lo_rg 0 1))),
    ("blue_x", Value.float (edid_decode_fraction hi_b_x (edid_get_bits lo_bw 6 7))),
    ("blue_y", Value.float (edid_decode_fraction hi_b_y (edid_get_bits lo_bw 4 5))),
    ("white_x", Value.float (edid_decode_fraction hi_w_x (edid_get_bits lo_bw 2 3))),
    ("white_y", Value.float (edid_decode_fraction hi_w_y (edid_get_bits lo_bw 0 1)))]

/-- One sub-record of `parse_color_point_data` at offset `i` (5 or 10),
decoded only when the index byte exceeds `i / 5`: indexed white-point keys
plus first-seen unindexed aliases.  The gamma sentinel check compares an
int with the string `"\xff"` (`pyIntNeStr`), always true in Python 3. -/
def color_point_sub (block : PyBytes) (result : Record) (i : Nat) :
    Option Record := do
  let bi ← block.get? i
  if i / 5 < bi then
    let b1 ← block.get? (i + 1)
    let b2 ← block.get? (i + 2)
    let b3 ← block.get? (i + 3)
    let b4 ← block.get? (i + 4)
    let white_x := edid_decode_fraction b2 (edid_get_bits b1 2 3)
    let result := dictSet result ("white_x_" ++ toString bi) (Value.float white_x)
    let result := if (result.lookup "white_x").isNone then
        dictSet result "white_x" (Value.float white_x) else result
    let white_y := edid_decode_fraction b3 (edid_get_bits b1 0 1)
    let result := dictSet result ("white_y_" ++ toString bi) (Value.float white_y)
    let result := if (result.lookup "white_y").isNone then
        dictSet result "white_y" (Value.float white_y) else result
    if pyIntNeStr b4 "\xff" then
      let gamma : ℚ := (b4 : ℚ) / 100 + 1
      let result := dictSet result ("gamma_" ++ toString bi) (Value.float gamma)
      let result := if (result.lookup "gamma").isNone then
          dictSet result "gamma" (Value.float gamma) else result
      some result
    else some result
  else some result

/-- `parse_color_point_data` from the source: the loop over sub-record
offsets 5 and 10, unrolled. -/
def parse_color_point_data (block : PyBytes) : Option Record := do
  let r ← color_point_sub block [] 5
  color_point_sub block r 10

/-- The `text_types` tag dictionary of `parse_edid_descriptor_blocks`,
keyed by the one-byte slice `block[3:4]`. -/
def text_types_get (tag : PyBytes) : Option String :=
  if tag = [0xFF] then some "serial_ascii"
  else if tag = [0xFE] then some "ascii"
  else if tag = [0xFC] then some "monitor_name"
  else none

/-- One iteration of the descriptor-block loop of
`parse_edid_descriptor_blocks`: skip slots without the all-zero marker,
decode text variants through the sanitizer, and dispatch the color branches
through the int-vs-bytes comparisons (`pyIntEqBytes`), which in Python 3
are always false. -/
def parse_descriptor_block (result : Record) (block : PyBytes) : Option Record :=
  if pySlice block 0 3 ≠ [0, 0, 0] then some result
  else match text_types_get (pySlice block 3 4) with
  | some text_type =>
      match edid_parse_string (pySlice block 5 18) with
      | some desc => do
          let s ← pyBytesDecodeUtf8 desc
          some (dictSet result text_type (Value.str s))
      | none => some result
  | none => do
      let b3 ← block.get? 3
      if pyIntEqBytes b3 [0xFB] then do
        let cp ← parse_color_point_data block
        some (dictUpdate result cp)
      else if pyIntEqBytes b3 [0xF9] then
        some (dictSet result "color_management_data"
          (Value.bytes (pySlice block 5 18)))
      else some result

/-- `parse_edid_descriptor_blocks` from the source: the loop over the four
fixed 18-byte windows at offsets 54, 72, 90, 108, unrolled. -/
def parse_edid_descriptor_blocks (edid : PyBytes) : Option Record := do
  let r ← parse_descriptor_block [] (pySlice edid 54 72)
  let r ← parse_descriptor_block r (pySlice edid 72 90)
  let r ← parse_descriptor_block r (pySlice edid 90 108)
  let r ← parse_descriptor_block r (pySlice edid 108 126)
  some r

/-- The extension-page walk of `parse_edid_extension_blocks`.  The
comparison `block[0] == BLOCK_DI_EXT` matches an int against a bytes
constant (`pyIntEqBytes`), always false in Python 3, so the body never
runs; the indexing `block[TRC[0]]` inside that dead branch is kept, being
its only possible failure point. -/
def ext_block_walk (block : PyBytes) : Option Unit :=
  match block with
  | [] => some ()
  | b :: rest => do
    if pyIntEqBytes b [0x40] then do
      let b81 ← (b :: rest).get? 81
      if pyIntNeStr b81 "\x00" then pure () else pure ()
    else pure ()
    ext_block_walk ((b :: rest).drop 128)
termination_by block.length
decreasing_by
  simp [List.length_drop]
  omega

/-- `parse_edid_extension_blocks` from the source: the extension flag and
checksum bytes verbatim, `checksum_valid` as the whole-buffer byte sum mod
256, and the extension-page walk for longer buffers. -/
def parse_edid_extension_blocks (edid : PyBytes) : Option Record := do
  let ext_flag ← edid.get? 126
  let checksum ← edid.get? 127
  let result : Record := [("ext_flag", Value.int ext_flag),
    ("checksum", Value.int checksum),
    ("checksum_valid", Value.bool (edid.sum % 256 == 0))]
  if 128 < edid.length ∧ 0 < ext_flag then do
    let _ ← ext_block_walk (edid.drop 128)
    some result
  else some result

/-- `parse_edid` from the source: apply the encoding repair to buffers of
unexpected length, then merge the five block parsers into one record.  The
process-wide manufacturer cache is passed explicitly. -/
def parse_edid (pnpidcache : List (String × String)) (edid : PyBytes) :
    Option Record := do
  let edid ← if edid.length = 128 ∨ edid.length = 256 ∨ edid.length = 384
    then some edid else fix_edid_encoding edid
  let edid := ensure_bytes edid
  let r1 ← parse_edid_header pnpidcache edid
  let r2 ← parse_edid_basic_display_parameters edid
  let r3 ← parse_edid_chromaticity_coordinates edid
  let r4 ← parse_edid_descriptor_blocks edid
  let r5 ← parse_edid_extension_blocks edid
  some (dictUpdate (dictUpdate (dictUpdate (dictUpdate r1 r2) r3) r4) r5)

/-- A 128-byte buffer whose gamma byte (offset 23) is the 0xFF sentinel. -/
def gammaSentinelEdid : PyBytes :=
  List.replicate 23 0 ++ [0xFF] ++ List.replicate 104 0

set_option maxRecDepth 8000 in
/-- Claim C1 (code bug): on a buffer whose gamma byte is 0xFF the decoded
record still contains the `gamma` key, with value `0xFF / 100 + 1 = 3.55`,
because the sentinel guard compares an int against a bytes literal, which
is always true in Python 3; the spec says the key is omitted.  Shown on
`parse_edid_basic_display_parameters` and on the full `parse_edid` record
(with an empty manufacturer cache). -/
theorem gamma_sentinel_key_still_present :
    ((parse_edid_basic_display_parameters gammaSentinelEdid).map
      (fun r => r.lookup "gamma")) = some (some (Value.float (71 / 20))) ∧
    ((parse_edid [] gammaSentinelEdid).map
      (fun r => r.lookup "gamma")) = some (some (Value.float (71 / 20))) := by
  have hq : (((255 : ℕ) : ℚ) / 100 + 1) = 71 / 20 := by norm_num
  constructor
  · have h1 : ((parse_edid_basic_display_parameters gammaSentinelEdid).map
        (fun r => r.lookup "gamma"))
        = some (some (Value.float (((255 : ℕ) : ℚ) / 100 + 1))) := rfl
    rw [h1, hq]
  · have h1 : ((parse_edid [] gammaSentinelEdid).map
        (fun r => r.lookup "gamma"))
        = some (some (Value.float (((255 : ℕ) : ℚ) / 100 + 1))) := rfl
    rw [h1, hq]

/-- A 128-byte buffer whose first descriptor slot is a color-point
descriptor (all-zero marker, type tag 0xFB) with a second-white-point
sub-record of index 2; the other three slots carry a nonzero first byte
and are skipped. -/
def colorPointEdid : PyBytes :=
  List.replicate 54 0
    ++ [0, 0, 0, 0xFB, 0, 2, 0, 0, 0, 0, 0, 0, 0, 0, 0, 0, 0, 0]
    ++ ([1] ++ List.replicate 17 0) ++ ([1] ++ List.replicate 17 0)
    ++ ([1] ++ List.replicate 17 0) ++ [0, 0]

/-- Claim C4 (code bug): the descriptor dispatcher never reaches the
color-point parser — `block[BLOCK_TYPE] == BLOCK_TYPE_COLOR_POINT` compares
an int with a bytes constant, always false in Python 3 — so the record for
`colorPointEdid` has no `white_x_2` key (it is empty), although
`parse_color_point_data` itself decodes the slot to one. -/
theorem color_point_dispatch_dead :
    parse_edid_descriptor_blocks colorPointEdid = some [] ∧
    ((parse_color_point_data (pySlice colorPointEdid 54 72)).map
      (fun r => r.lookup "white_x_2")) = some (some (Value.float 0)) := by
  constructor
  · rfl
  · have h1 : ((parse_color_point_data (pySlice colorPointEdid 54 72)).map
        (fun r => r.lookup "white_x_2"))
        = some (some (Value.float (edid_decode_fraction 0 (edid_get_bits 0 2 3)))) := rfl
    have h2 : edid_decode_fraction 0 (edid_get_bits 0 2 3) = 0 := by
      rw [show edid_get_bits 0 2 3 = 0 from rfl, edid_decode_fraction_eq]
      norm_num
    rw [h1, h2]

theorem get?_some {l : PyBytes} {i : Nat} (h : i < l.length) :
    ∃ b, l.get? i = some b :=
  ⟨l.get ⟨i, h⟩, List.get?_eq_get h⟩

theorem exists_pair {l : PyBytes} (h : l.length = 2) : ∃ a b, l = [a, b] := by
  match l, h with
  | [a, b], _ => exact ⟨a, b, rfl⟩

theorem exists_quad {l : PyBytes} (h : l.length = 4) :
    ∃ a b c d, l = [a, b, c, d] := by
  match l, h with
  | [a, b, c, d], _ => exact ⟨a, b, c, d, rfl⟩

theorem lookup_eq_none_of_any_eq_false {β : Type} {l : List (String × β)}
    {k : String} (h : l.any (fun p => p.1 == k) = false) : l.lookup k = none := by
  induction l with
  | nil => rfl
  | cons p t ih =>
    rw [List.any_cons] at h
    rcases p with ⟨a, b⟩
    have ha : (a == k) = false := by
      cases hx : (a == k) <;> simp [hx] at h ⊢
    have hk : (k == a) = false := by
      rw [beq_eq_false_iff_ne] at ha ⊢
      exact fun hke => ha hke.symm
    rw [List.lookup, hk, ih (by cases hx : t.any (fun p => p.1 == k) <;> simp [hx] at h ⊢)]

theorem lookup_set_map (r : Record) (k : String) (v : Value)
    (h : r.any (fun p => p.1 == k) = true) :
    (r.map (fun p => if p.1 == k then (k, v) else p)).lookup k = some v := by
  induction r with
  | nil => simp at h
  | cons p t ih =>
    rw [List.any_cons] at h
    by_cases hp : (p.1 == k) = true
    · rw [List.map_cons, if_pos hp]
      simp [List.lookup]
    · rw [List.map_cons, if_neg hp]
      have hk : (k == p.1) = false := by
        rw [Bool.not_eq_true, beq_eq_false_iff_ne] at hp
        rw [beq_eq_false_iff_ne]
        exact fun hke => hp hke.symm
      rcases p with ⟨a, b⟩
      rw [List.lookup, hk]
      exact ih (by
        rw [Bool.not_eq_true] at hp
        rw [hp] at h
        simpa using h)

theorem dictGet_dictSet_same (r : Record) (k : String) (v : Value) :
    (dictSet r k v).lookup k = some v := by
  unfold dictSet
  by_cases hany : r.any (fun p => p.1 == k) = true
  · rw [if_pos hany]
    exact lookup_set_map r k v hany
  · rw [if_neg hany, lookup_append,
        lookup_eq_none_of_any_eq_false (Bool.not_eq_true _ ▸ hany)]
    simp [List.lookup]

theorem pySlice_length {l : PyBytes} {a b : Nat} (hab : a ≤ b)
    (hb : b ≤ l.length) : (pySlice l a b).length = b - a := by
  simp [pySlice, List.length_take, List.length_drop]
  omega

theorem parse_edid_header_ok (cache : List (String × String)) (edid : PyBytes)
    (h : 10 ≤ edid.length) : ∃ r, parse_edid_header cache edid = some r := by
  have hlen : (pySlice edid 8 10).length = 2 :=
    pySlice_length (by omega) (by omega)
  obtain ⟨b0, b1, hsl⟩ := exists_pair hlen
  have hmid : ∃ s, parse_manufacturer_id (pySlice edid 8 10) = some s := by
    rw [hsl]
    exact ⟨_, rfl⟩
  obtain ⟨mid, hm⟩ := hmid
  unfold parse_edid_header
  rw [hm, Option.bind_eq_bind, Option.some_bind]
  cases hname : get_manufacturer_name cache mid with
  | none => exact ⟨_, rfl⟩
  | some name =>
    dsimp only
    by_cases hne : name ≠ ""
    · rw [if_pos hne]
      exact ⟨_, rfl⟩
    · rw [if_neg hne]
      exact ⟨_, rfl⟩

theorem parse_edid_bdp_ok (edid : PyBytes) (h : 25 ≤ edid.length) :
    ∃ r, parse_edid_basic_display_parameters edid = some r := by
  have h12 : (pySlice edid 10 12).length = 2 :=
    pySlice_length (by omega) (by omega)
  have h16 : (pySlice edid 12 16).length = 4 :=
    pySlice_length (by omega) (by omega)
  obtain ⟨a, b, hab⟩ := exists_pair h12
  obtain ⟨c, d, e, f, hcdef⟩ := exists_quad h16
  obtain ⟨w16, hw16⟩ := get?_some (l := edid) (i := 16) (by omega)
  obtain ⟨w17, hw17⟩ := get?_some (l := edid) (i := 17) (by omega)
  obtain ⟨w18, hw18⟩ := get?_some (l := edid) (i := 18) (by omega)
  obtain ⟨w19, hw19⟩ := get?_some (l := edid) (i := 19) (by omega)
  obtain ⟨w21, hw21⟩ := get?_some (l := edid) (i := 21) (by omega)
  obtain ⟨w22, hw22⟩ := get?_some (l := edid) (i := 22) (by omega)
  obtain ⟨w23, hw23⟩ := get?_some (l := edid) (i := 23) (by omega)
  obtain ⟨w24, hw24⟩ := get?_some (l := edid) (i := 24) (by omega)
  unfold parse_edid_basic_display_parameters
  rw [hab, hcdef]
  simp only [struct_unpack_u16le, struct_unpack_u32le, hw16, hw17, hw18, hw19,
    hw21, hw22, hw23, hw24, Option.bind_eq_bind, Option.some_bind]
  exact ⟨_, rfl⟩

theorem parse_edid_chroma_ok (edid : PyBytes) (h : 35 ≤ edid.length) :
    ∃ r, parse_edid_chromaticity_coordinates edid = some r := by
  obtain ⟨w25, hw25⟩ := get?_some (l := edid) (i := 25) (by omega)
  obtain ⟨w26, hw26⟩ := get?_some (l := edid) (i := 26) (by omega)
  obtain ⟨w27, hw27⟩ := get?_some (l := edid) (i := 27) (by omega)
  obtain ⟨w28, hw28⟩ := get?_some (l := edid) (i := 28) (by omega)
  obtain ⟨w29, hw29⟩ := get?_some (l := edid) (i := 29) (by omega)
  obtain ⟨w30, hw30⟩ := get?_some (l := edid) (i := 30) (by omega)
  obtain ⟨w31, hw31⟩ := get?_some (l := edid) (i := 31) (by omega)
  obtain ⟨w32, hw32⟩ := get?_some (l := edid) (i := 32) (by omega)
  obtain ⟨w33, hw33⟩ := get?_some (l := edid) (i := 33) (by omega)
  obtain ⟨w34, hw34⟩ := get?_some (l := edid) (i := 34) (by omega)
  unfold parse_edid_chromaticity_coordinates
  simp only [hw25, hw26, hw27, hw28, hw29, hw30, hw31, hw32, hw33, hw34,
    Option.bind_eq_bind, Option.some_bind]
  exact ⟨_, rfl⟩

theorem utf8Decode_ascii : ∀ l : PyBytes, (∀ b ∈ l, b < 128) → utf8Decode l = some l := by
  intro l
  induction l with
  | nil => intro _; rw [utf8Decode]
  | cons b t ih =>
    intro h
    rw [utf8Decode.eq_def]
    dsimp only
    rw [if_pos (h b (List.mem_cons_self b t))]
    rw [ih (fun x hx => h x (List.mem_cons_of_mem b hx))]
    rfl

theorem edid_parse_string_printable {desc s : PyBytes}
    (h : edid_parse_string desc = some s) : ∀ b ∈ s, 32 ≤ b ∧ b ≤ 126 := by
  rw [edid_parse_string_eq] at h
  by_cases hc : 4 < edid_string_bad_count desc
  · rw [if_pos hc] at h
    cases h
  · rw [if_neg hc] at h
    injection h with h
    subst h
    intro b hb
    rw [edid_string_replaced, List.mem_map] at hb
    obtain ⟨a, _, rfl⟩ := hb
    by_cases ha : a < 32 ∨ 126 < a
    · rw [if_pos ha]
      omega
    · rw [if_neg ha]
      push_neg at ha
      omega

theorem pyBytesDecodeUtf8_of_printable {s : PyBytes}
    (h : ∀ b ∈ s, 32 ≤ b ∧ b ≤ 126) : ∃ t, pyBytesDecodeUtf8 s = some t := by
  unfold pyBytesDecodeUtf8
  rw [utf8Decode_ascii s (fun b hb => by have := h b hb; omega)]
  exact ⟨_, rfl⟩

theorem parse_descriptor_block_ok (r : Record) (block : PyBytes)
    (h : 4 ≤ block.length) : ∃ r2, parse_descriptor_block r block = some r2 := by
  unfold parse_descriptor_block
  by_cases hm : pySlice block 0 3 ≠ [0, 0, 0]
  · rw [if_pos hm]
    exact ⟨_, rfl⟩
  · rw [if_neg hm]
    cases ht : text_types_get (pySlice block 3 4) with
    | some text_type =>
      dsimp only
      cases hs : edid_parse_string (pySlice block 5 18) with
      | some desc =>
        obtain ⟨t, hdec⟩ := pyBytesDecodeUtf8_of_printable
          (edid_parse_string_printable hs)
        dsimp only
        rw [hdec, Option.bind_eq_bind, Option.some_bind]
        exact ⟨_, rfl⟩
      | none => exact ⟨_, rfl⟩
    | none =>
      dsimp only
      obtain ⟨b3, hb3⟩ := get?_some (l := block) (i := 3) (by omega)
      rw [hb3, Option.bind_eq_bind, Option.some_bind]
      simp only [pyIntEqBytes, Bool.false_eq_true, if_false]
      exact ⟨_, rfl⟩

theorem parse_edid_descriptor_blocks_ok (edid : PyBytes)
    (h : 126 ≤ edid.length) : ∃ r, parse_edid_descriptor_blocks edid = some r := by
  have hlen : ∀ a b : Nat, a ≤ b → b ≤ 126 → b - a = 18 →
      (pySlice edid a b).length = 18 := by
    intro a b hab hb hd
    rw [pySlice_length hab (by omega), hd]
  obtain ⟨r1, h1⟩ := parse_descriptor_block_ok []
    (pySlice edid 54 72) (by rw [hlen 54 72 (by omega) (by omega) rfl]; omega)
  obtain ⟨r2, h2⟩ := parse_descriptor_block_ok r1
    (pySlice edid 72 90) (by rw [hlen 72 90 (by omega) (by omega) rfl]; omega)
  obtain ⟨r3, h3⟩ := parse_descriptor_block_ok r2
    (pySlice edid 90 108) (by rw [hlen 90 108 (by omega) (by omega) rfl]; omega)
  obtain ⟨r4, h4⟩ := parse_descriptor_block_ok r3
    (pySlice edid 108 126) (by rw [hlen 108 126 (by omega) (by omega) rfl]; omega)
  unfold parse_edid_descriptor_blocks
  rw [h1, Option.bind_eq_bind, Option.some_bind, h2, Option.some_bind,
      h3, Option.some_bind, h4, Option.some_bind]
  exact ⟨_, rfl⟩

theorem ext_block_walk_some (block : PyBytes) : ext_block_walk block = some () := by
  match block with
  | [] => rw [ext_block_walk]
  | b :: rest =>
    rw [ext_block_walk]
    have hrec := ext_block_walk_some (rest.drop 127)
    simp [pyIntEqBytes, hrec]
termination_by block.length
decreasing_by
  simp [List.length_drop]
  omega

theorem parse_edid_extension_blocks_eq (edid : PyBytes) (h : 128 ≤ edid.length) :
    ∃ e c, parse_edid_extension_blocks edid = some
      [("ext_flag", Value.int e), ("checksum", Value.int c),
       ("checksum_valid", Value.bool (edid.sum % 256 == 0))] := by
  obtain ⟨e, he⟩ := get?_some (l := edid) (i := 126) (by omega)
  obtain ⟨c, hc⟩ := get?_some (l := edid) (i := 127) (by omega)
  refine ⟨e, c, ?_⟩
  unfold parse_edid_extension_blocks
  rw [he, Option.bind_eq_bind, Option.some_bind, hc, Option.some_bind]
  dsimp only
  by_cases hg : 128 < edid.length ∧ 0 < e
  · rw [if_pos hg, ext_block_walk_some]
    rfl
  · rw [if_neg hg]

theorem parse_edid_ok_checksum (cache : List (String × String)) (edid : PyBytes)
    (h : edid.length = 128 ∨ edid.length = 256 ∨ edid.length = 384) :
    ∃ r, parse_edid cache edid = some r ∧
      r.lookup "checksum_valid" = some (Value.bool (edid.sum % 256 == 0)) := by
  have hlen : 128 ≤ edid.length := by rcases h with h | h | h <;> omega
  obtain ⟨r1, h1⟩ := parse_edid_header_ok cache edid (by omega)
  obtain ⟨r2, h2⟩ := parse_edid_bdp_ok edid (by omega)
  obtain ⟨r3, h3⟩ := parse_edid_chroma_ok edid (by omega)
  obtain ⟨r4, h4⟩ := parse_edid_descriptor_blocks_ok edid (by omega)
  obtain ⟨e, c, h5⟩ := parse_edid_extension_blocks_eq edid hlen
  refine ⟨dictUpdate (dictUpdate (dictUpdate (dictUpdate r1 r2) r3) r4)
    [("ext_flag", Value.int e), ("checksum", Value.int c),
     ("checksum_valid", Value.bool (edid.sum % 256 == 0))], ?_, ?_⟩
  · unfold parse_edid
    rw [if_pos h]
    unfold ensure_bytes
    simp only [Option.bind_eq_bind, Option.some_bind, h1, h2, h3, h4, h5]
  · rw [show dictUpdate (dictUpdate (dictUpdate (dictUpdate r1 r2) r3) r4)
        [("ext_flag", Value.int e), ("checksum", Value.int c),
         ("checksum_valid", Value.bool (edid.sum % 256 == 0))]
      = dictSet (dictSet (dictSet (dictUpdate (dictUpdate (dictUpdate r1 r2) r3) r4)
          "ext_flag" (Value.int e)) "checksum" (Value.int c))
          "checksum_valid" (Value.bool (edid.sum % 256 == 0)) from rfl]
    exact dictGet_dictSet_same _ _ _

/-- Counterexample to claim C2 as stated: on the empty buffer `parse_edid`
raises IndexError (modelled as `none`): the length is not in
{128, 256, 384}, the repair heuristic leaves the empty buffer unchanged
(no 0xC2/0xC3 marker), and `parse_manufacturer_id` then indexes past the
end of the empty manufacturer-id slice. -/
theorem parse_edid_raises_on_empty : parse_edid [] [] = none := rfl

/-- Claim C2 as amended: `parse_edid` returns a record without raising for
every buffer whose length is one of the standard lengths 128, 256, 384
(which skip the repair heuristic); buffers of other lengths can raise — an
IndexError for short buffers, or a UnicodeDecodeError inside the repair
heuristic. -/
theorem parse_edid_total_on_standard_lengths (cache : List (String × String))
    (edid : PyBytes)
    (h : edid.length = 128 ∨ edid.length = 256 ∨ edid.length = 384) :
    ∃ r, parse_edid cache edid = some r := by
  obtain ⟨r, hr, _⟩ := parse_edid_ok_checksum cache edid h
  exact ⟨r, hr⟩

/-- The all-zero 128-byte buffer, whose byte sum is a multiple of 256. -/
def zeroEdid128 : PyBytes := List.replicate 128 0

/-- Witness for the amended C2 at the all-zero 128-byte buffer. -/
theorem parse_edid_total_on_standard_lengths_witness :
    ∃ r, parse_edid [] zeroEdid128 = some r :=
  parse_edid_total_on_standard_lengths [] zeroEdid128 (Or.inl rfl)

/-- Claim C5: for every buffer of one of the decoded lengths 128, 256, 384
(single- and multi-page), the record's `checksum_valid` field is true if
and only if the sum of every byte of the whole buffer modulo 256 equals
0. -/
theorem parse_edid_checksum_valid_iff (cache : List (String × String))
    (edid : PyBytes)
    (h : edid.length = 128 ∨ edid.length = 256 ∨ edid.length = 384) :
    ∃ r, parse_edid cache edid = some r ∧
      r.lookup "checksum_valid" = some (Value.bool (edid.sum % 256 == 0)) ∧
      (r.lookup "checksum_valid" = some (Value.bool true) ↔
        edid.sum % 256 = 0) := by
  obtain ⟨r, hr, hc⟩ := parse_edid_ok_checksum cache edid h
  refine ⟨r, hr, hc, ?_⟩
  rw [hc]
  constructor
  · intro hx
    injection hx with hx
    injection hx with hx
    exact beq_iff_eq.mp hx
  · intro hx
    rw [hx]
    rfl

/-- Witness for C5 at the all-zero 128-byte buffer (checksum valid). -/
theorem parse_edid_checksum_valid_iff_witness :
    ∃ r, parse_edid [] zeroEdid128 = some r ∧
      r.lookup "checksum_valid" = some (Value.bool (zeroEdid128.sum % 256 == 0)) ∧
      (r.lookup "checksum_valid" = some (Value.bool true) ↔
        zeroEdid128.sum % 256 = 0) :=
  parse_edid_checksum_valid_iff [] zeroEdid128 (Or.inl rfl)
